import Mathlib

/-!
Verification of the client-side encryption core of the personalmanager
repository (src/lib/crypto.ts, src/contexts/AuthContext.tsx reached through
src/App.tsx, and the Passwords page decryption loop).

Modelling conventions:
* JavaScript byte buffers (`Uint8Array`, `ArrayBuffer`) are `List Nat` with
  every element `< 256`.
* JavaScript strings are Lean `String` / `List Char` (each `Char` a Unicode
  scalar value, as JS strings are handed to `TextEncoder`).
* `async` functions that can reject are total functions into `Option`;
  `none` is the rejected promise or thrown exception.
* Randomness (`crypto.getRandomValues`) is passed in as an explicit argument.
* Platform primitives that the repository calls but does not define
  (`btoa`/`atob`, `TextEncoder`/`TextDecoder`, `crypto.subtle` PBKDF2 and
  AES-GCM) are modelled from the spec; each such definition says so in its
  doc comment.  Everything else is translated directly from the source.
-/

namespace PersonalManager

/-! ### Base64 (btoa / atob and the repository wrappers around them) -/

/-- Standard base64 alphabet, index 0 to 63. -/
def b64Table : List Char :=
  "ABCDEFGHIJKLMNOPQRSTUVWXYZabcdefghijklmnopqrstuvwxyz0123456789+/".data

/-- Character of the base64 alphabet at sextet `n` (only used for `n < 64`). -/
def b64Char (n : Nat) : Char := b64Table.getD n 'A'

/-- Index of a character in the base64 alphabet, `none` when it is not there. -/
def b64Index (c : Char) : Option Nat := b64Table.indexOf? c

/-- Modelled from the spec: the platform `btoa`, standard base64 encoding of a
byte sequence ("All binary fields are base64-encoded for storage/transport"),
three bytes to four characters with `=` padding. -/
def base64Encode : List Nat → List Char
  | [] => []
  | [a] => [b64Char (a / 4), b64Char (a % 4 * 16), '=', '=']
  | [a, b] => [b64Char (a / 4), b64Char (a % 4 * 16 + b / 16), b64Char (b % 16 * 4), '=']
  | a :: b :: c :: rest =>
      b64Char (a / 4) :: b64Char (a % 4 * 16 + b / 16) :: b64Char (b % 16 * 4 + c / 64) ::
        b64Char (c % 64) :: base64Encode rest

/-- Modelled from the spec: the platform `atob`, standard base64 decoding;
`none` is the `InvalidCharacterError` it throws on malformed input. -/
def base64Decode : List Char → Option (List Nat)
  | [] => some []
  | c0 :: c1 :: c2 :: c3 :: rest =>
    match b64Index c0, b64Index c1 with
    | some s0, some s1 =>
      if c2 = '=' then
        if c3 = '=' ∧ rest = [] then some [s0 * 4 + s1 / 16] else none
      else
        match b64Index c2 with
        | some s2 =>
          if c3 = '=' then
            if rest = [] then some [s0 * 4 + s1 / 16, s1 % 16 * 16 + s2 / 4] else none
          else
            match b64Index c3 with
            | some s3 =>
              (base64Decode rest).map fun tl =>
                (s0 * 4 + s1 / 16) :: (s1 % 16 * 16 + s2 / 4) :: (s2 % 4 * 64 + s3) :: tl
            | none => none
        | none => none
    | _, _ => none
  | _ => none

/-- Translation of `arrayBufferToBase64` (crypto.ts lines 19-26): the loop
building the intermediate \x22binary string\x22 with `String.fromCharCode` is the
identity on byte values, so the function is `btoa` on the bytes. -/
def arrayBufferToBase64 (buffer : List Nat) : List Char := base64Encode buffer

/-- Translation of `base64ToArrayBuffer` (crypto.ts lines 29-36): `atob`, then
`charCodeAt` per character, which is the identity on the decoded byte values.
`none` when `atob` throws. -/
def base64ToArrayBuffer (base64 : List Char) : Option (List Nat) := base64Decode base64

set_option maxHeartbeats 1000000 in
theorem b64Index_b64Char : ∀ n < 64, b64Index (b64Char n) = some n := by decide

set_option maxHeartbeats 1000000 in
theorem b64Char_ne_pad : ∀ n < 64, b64Char n ≠ '=' := by decide

theorem base64Decode_base64Encode (l : List Nat) (h : ∀ b ∈ l, b < 256) :
    base64Decode (base64Encode l) = some l := by
  match l with
  | [] => simp [base64Encode, base64Decode]
  | [a] =>
    have ha : a < 256 := h a (by simp)
    have h0 : a / 4 < 64 := by omega
    have h1 : a % 4 * 16 < 64 := by omega
    simp only [base64Encode, base64Decode, b64Index_b64Char _ h0, b64Index_b64Char _ h1]
    simp [b64Char_ne_pad _ h0, b64Char_ne_pad _ h1]
    omega
  | [a, b] =>
    have ha : a < 256 := h a (by simp)
    have hb : b < 256 := h b (by simp)
    have h0 : a / 4 < 64 := by omega
    have h1 : a % 4 * 16 + b / 16 < 64 := by omega
    have h2 : b % 16 * 4 < 64 := by omega
    simp only [base64Encode, base64Decode, b64Index_b64Char _ h0, b64Index_b64Char _ h1,
      b64Index_b64Char _ h2]
    simp [b64Char_ne_pad _ h0, b64Char_ne_pad _ h1, b64Char_ne_pad _ h2]
    omega
  | a :: b :: c :: rest =>
    have ha : a < 256 := h a (by simp)
    have hb : b < 256 := h b (by simp)
    have hc : c < 256 := h c (by simp)
    have h0 : a / 4 < 64 := by omega
    have h1 : a % 4 * 16 + b / 16 < 64 := by omega
    have h2 : b % 16 * 4 + c / 64 < 64 := by omega
    have h3 : c % 64 < 64 := by omega
    have ih := base64Decode_base64Encode rest (fun x hx => h x (by simp [hx]))
    simp only [base64Encode, base64Decode, b64Index_b64Char _ h0, b64Index_b64Char _ h1,
      b64Index_b64Char _ h2, b64Index_b64Char _ h3, ih]
    have e1 : a / 4 * 4 + (a % 4 * 16 + b / 16) / 16 = a := by omega
    have e2 : (a % 4 * 16 + b / 16) % 16 * 16 + (b % 16 * 4 + c / 64) / 4 = b := by omega
    have e3 : (b % 16 * 4 + c / 64) % 4 * 64 + c % 64 = c := by omega
    simp [b64Char_ne_pad _ h0, b64Char_ne_pad _ h1, b64Char_ne_pad _ h2, b64Char_ne_pad _ h3,
      e1, e2, e3, Option.map]

/-- C10: for every byte sequence `b` (bytes < 256, as delivered by a JS
`Uint8Array`), `base64ToArrayBuffer (arrayBufferToBase64 b)` returns exactly
`b`: the base64 storage encoding round-trips, so persisted salts, verifiers,
ciphertexts and nonces decode back to the bytes produced at encryption or
registration time. -/
theorem c10_base64_roundtrip (b : List Nat) (h : ∀ x ∈ b, x < 256) :
    base64ToArrayBuffer (arrayBufferToBase64 b) = some b :=
  base64Decode_base64Encode b h

/-- Witness for C10 at a concrete byte buffer. -/
theorem c10_base64_roundtrip_witness :
    base64ToArrayBuffer (arrayBufferToBase64 [0, 255, 17, 42]) = some [0, 255, 17, 42] :=
  c10_base64_roundtrip [0, 255, 17, 42] (by decide)

/-! ### UTF-8 (TextEncoder / TextDecoder) -/

/-- Modelled from the spec: UTF-8 encoding of one Unicode scalar value, as
performed per character by the platform `TextEncoder`. -/
def utf8EncodeChar (c : Char) : List Nat :=
  let n := c.toNat
  if n < 128 then [n]
  else if n < 2048 then [192 + n / 64, 128 + n % 64]
  else if n < 65536 then [224 + n / 4096, 128 + n / 64 % 64, 128 + n % 64]
  else [240 + n / 262144, 128 + n / 4096 % 64, 128 + n / 64 % 64, 128 + n % 64]

/-- Modelled from the spec: the platform `TextEncoder.encode`, UTF-8 bytes of
a string given as its list of characters. -/
def utf8Encode (s : List Char) : List Nat := s.flatMap utf8EncodeChar

/-- Modelled from the spec: one step of the platform `TextDecoder`, reading
the character whose encoding starts with byte `b0` and returning it with the
remaining bytes; `none` on an ill-formed prefix. -/
def utf8DecodeOne (b0 : Nat) (rest : List Nat) : Option (Char × List Nat) :=
  if b0 < 128 then some (Char.ofNat b0, rest)
  else if b0 < 192 then none
  else if b0 < 224 then
    match rest with
    | b1 :: rest1 =>
      if 128 ≤ b1 ∧ b1 < 192 then
        some (Char.ofNat ((b0 - 192) * 64 + (b1 - 128)), rest1)
      else none
    | [] => none
  else if b0 < 240 then
    match rest with
    | b1 :: b2 :: rest2 =>
      if (128 ≤ b1 ∧ b1 < 192) ∧ (128 ≤ b2 ∧ b2 < 192) then
        some (Char.ofNat ((b0 - 224) * 4096 + (b1 - 128) * 64 + (b2 - 128)), rest2)
      else none
    | _ => none
  else if b0 < 248 then
    match rest with
    | b1 :: b2 :: b3 :: rest3 =>
      if (128 ≤ b1 ∧ b1 < 192) ∧ (128 ≤ b2 ∧ b2 < 192) ∧ (128 ≤ b3 ∧ b3 < 192) then
        some (Char.ofNat ((b0 - 240) * 262144 + (b1 - 128) * 4096 + (b2 - 128) * 64 + (b3 - 128)),
          rest3)
      else none
    | _ => none
  else none

/-- Fuel-indexed decoding loop; each character consumes at least one byte, so
fuel equal to the byte count always suffices. -/
def utf8DecodeAux : Nat → List Nat → Option (List Char)
  | _, [] => some []
  | 0, _ :: _ => none
  | fuel + 1, b0 :: rest =>
    match utf8DecodeOne b0 rest with
    | some (c, rem) => (utf8DecodeAux fuel rem).map fun tl => c :: tl
    | none => none

/-- Modelled from the spec: the platform `TextDecoder.decode`. `none` stands
for an ill-formed byte sequence (the real decoder substitutes replacement
characters there; the two behaviours agree on well-formed UTF-8, which is all
the round-trip and verifier paths ever feed it, and an ill-formed sequence
never decodes to a marker such as `VERIFY` either way). -/
def utf8Decode (l : List Nat) : Option (List Char) := utf8DecodeAux l.length l

theorem char_toNat_lt (c : Char) : c.toNat < 1114112 := by
  rcases c.valid with h | ⟨_, h2⟩
  · exact Nat.lt_trans h (by norm_num)
  · exact h2

theorem utf8EncodeChar_lt_256 (c : Char) : ∀ b ∈ utf8EncodeChar c, b < 256 := by
  have hv := char_toNat_lt c
  intro b hb
  unfold utf8EncodeChar at hb
  by_cases h1 : c.toNat < 128
  · simp [h1] at hb; omega
  · by_cases h2 : c.toNat < 2048
    · simp [h1, h2] at hb; omega
    · by_cases h3 : c.toNat < 65536
      · simp [h1, h2, h3] at hb
        rcases hb with h | h | h <;> omega
      · simp [h1, h2, h3] at hb
        rcases hb with h | h | h | h <;> omega

theorem utf8Encode_lt_256 (s : List Char) : ∀ b ∈ utf8Encode s, b < 256 := by
  intro b hb
  simp only [utf8Encode, List.mem_flatMap] at hb
  obtain ⟨c, _, hbc⟩ := hb
  exact utf8EncodeChar_lt_256 c b hbc

theorem utf8DecodeAux_encode (s : List Char) :
    ∀ fuel, (utf8Encode s).length ≤ fuel → utf8DecodeAux fuel (utf8Encode s) = some s := by
  induction s with
  | nil => intro fuel _; cases fuel <;> simp [utf8Encode, utf8DecodeAux]
  | cons c s ih =>
    intro fuel hfuel
    have hs : utf8Encode (c :: s) = utf8EncodeChar c ++ utf8Encode s := by
      simp [utf8Encode]
    rw [hs] at hfuel ⊢
    have hv := char_toNat_lt c
    have hofs : Char.ofNat c.toNat = c := Char.ofNat_toNat c
    by_cases h1 : c.toNat < 128
    · have he : utf8EncodeChar c = [c.toNat] := by simp [utf8EncodeChar, h1]
      rw [he] at hfuel ⊢
      simp only [List.cons_append, List.nil_append, List.length_cons] at hfuel ⊢
      obtain ⟨f, rfl⟩ : ∃ f, fuel = f + 1 := ⟨fuel - 1, by omega⟩
      simp [utf8DecodeAux, utf8DecodeOne, h1, hofs, ih f (by omega)]
    · by_cases h2 : c.toNat < 2048
      · have he : utf8EncodeChar c = [192 + c.toNat / 64, 128 + c.toNat % 64] := by
          simp [utf8EncodeChar, h1, h2]
        rw [he] at hfuel ⊢
        simp only [List.cons_append, List.nil_append, List.length_cons] at hfuel ⊢
        obtain ⟨f, rfl⟩ : ∃ f, fuel = f + 1 := ⟨fuel - 1, by omega⟩
        have e0 : ¬ 192 + c.toNat / 64 < 128 := by omega
        have e1 : ¬ 192 + c.toNat / 64 < 192 := by omega
        have e2 : 192 + c.toNat / 64 < 224 := by omega
        have e3 : 128 ≤ 128 + c.toNat % 64 ∧ 128 + c.toNat % 64 < 192 := by omega
        have e4 : c.toNat / 64 * 64 + c.toNat % 64 = c.toNat := by omega
        simp [utf8DecodeAux, utf8DecodeOne, e0, e1, e2, e3, e4, hofs, ih f (by omega)]
      · by_cases h3 : c.toNat < 65536
        · have he : utf8EncodeChar c =
              [224 + c.toNat / 4096, 128 + c.toNat / 64 % 64, 128 + c.toNat % 64] := by
            simp [utf8EncodeChar, h1, h2, h3]
          rw [he] at hfuel ⊢
          simp only [List.cons_append, List.nil_append, List.length_cons] at hfuel ⊢
          obtain ⟨f, rfl⟩ : ∃ f, fuel = f + 1 := ⟨fuel - 1, by omega⟩
          have e0 : ¬ 224 + c.toNat / 4096 < 128 := by omega
          have e1 : ¬ 224 + c.toNat / 4096 < 192 := by omega
          have e2 : ¬ 224 + c.toNat / 4096 < 224 := by omega
          have e3 : 224 + c.toNat / 4096 < 240 := by omega
          have e4 : (128 ≤ 128 + c.toNat / 64 % 64 ∧ 128 + c.toNat / 64 % 64 < 192) ∧
              128 ≤ 128 + c.toNat % 64 ∧ 128 + c.toNat % 64 < 192 := by omega
          have e5 : c.toNat / 4096 * 4096 + c.toNat / 64 % 64 * 64 + c.toNat % 64 = c.toNat := by
            omega
          simp [utf8DecodeAux, utf8DecodeOne, e0, e1, e2, e3, e4, e5, hofs, ih f (by omega)]
        · have he : utf8EncodeChar c = [240 + c.toNat / 262144, 128 + c.toNat / 4096 % 64,
              128 + c.toNat / 64 % 64, 128 + c.toNat % 64] := by
            simp [utf8EncodeChar, h1, h2, h3]
          rw [he] at hfuel ⊢
          simp only [List.cons_append, List.nil_append, List.length_cons] at hfuel ⊢
          obtain ⟨f, rfl⟩ : ∃ f, fuel = f + 1 := ⟨fuel - 1, by omega⟩
          have e0 : ¬ 240 + c.toNat / 262144 < 128 := by omega
          have e1 : ¬ 240 + c.toNat / 262144 < 192 := by omega
          have e2 : ¬ 240 + c.toNat / 262144 < 224 := by omega
          have e3 : ¬ 240 + c.toNat / 262144 < 240 := by omega
          have e4 : 240 + c.toNat / 262144 < 248 := by omega
          have e5 : (128 ≤ 128 + c.toNat / 4096 % 64 ∧ 128 + c.toNat / 4096 % 64 < 192) ∧
              (128 ≤ 128 + c.toNat / 64 % 64 ∧ 128 + c.toNat / 64 % 64 < 192) ∧
              128 ≤ 128 + c.toNat % 64 ∧ 128 + c.toNat % 64 < 192 := by omega
          have e6 : c.toNat / 262144 * 262144 + c.toNat / 4096 % 64 * 4096 +
              c.toNat / 64 % 64 * 64 + c.toNat % 64 = c.toNat := by omega
          simp [utf8DecodeAux, utf8DecodeOne, e0, e1, e2, e3, e4, e5, e6, hofs, ih f (by omega)]

theorem utf8Decode_utf8Encode (s : List Char) : utf8Decode (utf8Encode s) = some s :=
  utf8DecodeAux_encode s (utf8Encode s).length (Nat.le_refl _)

/-! ### Platform crypto primitives (crypto.subtle), modelled from the spec -/

/-- Modelled from the spec: PBKDF2 key derivation (`deriveKey`, crypto.ts
lines 39-68).  "Deterministic: identical (password, salt) always yields the
identical key"; the iterated hash itself is outside the repository, so the
model keeps only determinism and dependence on exactly (password, salt),
yielding the 256-bit key material as bytes. -/
def deriveKey (masterPassword : String) (salt : List Nat) : List Nat :=
  utf8Encode masterPassword.data ++ 0 :: salt

/-- Keystream byte `i` of the modelled AES-GCM cipher under `key`/`nonce`. -/
def gcmPad (key nonce : List Nat) (i : Nat) : Nat :=
  (key.foldl (fun a b => (a * 31 + b) % 65536) 7 +
    nonce.foldl (fun a b => (a * 131 + b) % 65536) 13 * 257 + i * 101) % 256

/-- Authentication tag (16 bytes) of the modelled AES-GCM cipher over a
ciphertext body. -/
def gcmTag (key nonce ct : List Nat) : List Nat :=
  (List.range 16).map fun i =>
    (gcmPad key nonce (i + 4096) + ct.foldl (fun a b => (a * 257 + b) % 65521) 1 + i * 31) % 256

/-- Byte-wise masking of a plaintext with the keystream, starting at index
`i`. -/
def maskBytes (key nonce : List Nat) : Nat → List Nat → List Nat
  | _, [] => []
  | i, b :: rest => (b + gcmPad key nonce i) % 256 :: maskBytes key nonce (i + 1) rest

/-- Inverse of `maskBytes`. -/
def unmaskBytes (key nonce : List Nat) : Nat → List Nat → List Nat
  | _, [] => []
  | i, b :: rest => (b + 256 - gcmPad key nonce i) % 256 :: unmaskBytes key nonce (i + 1) rest

/-- Modelled from the spec: `crypto.subtle.encrypt` with AES-GCM
("authenticated encrypt ... returns both outputs"): masked plaintext followed
by a 16-byte authentication tag. -/
def aesGcmEncrypt (key nonce pt : List Nat) : List Nat :=
  let body := maskBytes key nonce 0 pt
  body ++ gcmTag key nonce body

/-- Modelled from the spec: `crypto.subtle.decrypt` with AES-GCM; `none` is
the rejected promise on an authentication failure ("fails with
DecryptionError when the authentication tag does not verify ... never return
partially-decrypted or unauthenticated plaintext"). -/
def aesGcmDecrypt (key nonce ct : List Nat) : Option (List Nat) :=
  if _h : ct.length < 16 then none
  else
    let body := ct.take (ct.length - 16)
    let tag := ct.drop (ct.length - 16)
    if tag = gcmTag key nonce body then some (unmaskBytes key nonce 0 body) else none

theorem gcmPad_lt_256 (key nonce : List Nat) (i : Nat) : gcmPad key nonce i < 256 := by
  unfold gcmPad
  exact Nat.mod_lt _ (by norm_num)

theorem maskBytes_length (key nonce : List Nat) :
    ∀ i l, (maskBytes key nonce i l).length = l.length := by
  intro i l
  induction l generalizing i with
  | nil => simp [maskBytes]
  | cons b rest ih => simp [maskBytes, ih]

theorem maskBytes_lt_256 (key nonce : List Nat) :
    ∀ i l, ∀ b ∈ maskBytes key nonce i l, b < 256 := by
  intro i l
  induction l generalizing i with
  | nil => simp [maskBytes]
  | cons b rest ih =>
    intro x hx
    simp only [maskBytes, List.mem_cons] at hx
    rcases hx with h | h
    · omega
    · exact ih (i + 1) x h

theorem gcmTag_length (key nonce ct : List Nat) : (gcmTag key nonce ct).length = 16 := by
  simp [gcmTag]

theorem gcmTag_lt_256 (key nonce ct : List Nat) : ∀ b ∈ gcmTag key nonce ct, b < 256 := by
  intro b hb
  simp only [gcmTag, List.mem_map, List.mem_range] at hb
  obtain ⟨i, _, rfl⟩ := hb
  omega

theorem aesGcmEncrypt_lt_256 (key nonce pt : List Nat) :
    ∀ b ∈ aesGcmEncrypt key nonce pt, b < 256 := by
  intro b hb
  simp only [aesGcmEncrypt, List.mem_append] at hb
  rcases hb with h | h
  · exact maskBytes_lt_256 key nonce 0 pt b h
  · exact gcmTag_lt_256 key nonce _ b h

theorem unmaskBytes_maskBytes (key nonce : List Nat) :
    ∀ i l, (∀ b ∈ l, b < 256) → unmaskBytes key nonce i (maskBytes key nonce i l) = l := by
  intro i l
  induction l generalizing i with
  | nil => simp [maskBytes, unmaskBytes]
  | cons b rest ih =>
    intro h
    have hb : b < 256 := h b (by simp)
    simp only [maskBytes, unmaskBytes, List.cons.injEq]
    constructor
    · have hp := gcmPad_lt_256 key nonce i
      omega
    · exact ih (i + 1) (fun x hx => h x (by simp [hx]))

theorem aesGcmDecrypt_aesGcmEncrypt (key nonce pt : List Nat) (h : ∀ b ∈ pt, b < 256) :
    aesGcmDecrypt key nonce (aesGcmEncrypt key nonce pt) = some pt := by
  have hlen : (aesGcmEncrypt key nonce pt).length = pt.length + 16 := by
    simp [aesGcmEncrypt, maskBytes_length, gcmTag_length]
  have hmask : (maskBytes key nonce 0 pt).length = pt.length := maskBytes_length key nonce 0 pt
  unfold aesGcmDecrypt
  rw [dif_neg (by omega)]
  have htake : (aesGcmEncrypt key nonce pt).take ((aesGcmEncrypt key nonce pt).length - 16) =
      maskBytes key nonce 0 pt := by
    rw [hlen]
    show (maskBytes key nonce 0 pt ++ gcmTag key nonce (maskBytes key nonce 0 pt)).take
        (pt.length + 16 - 16) = maskBytes key nonce 0 pt
    rw [show pt.length + 16 - 16 = (maskBytes key nonce 0 pt).length by omega]
    simp
  have hdrop : (aesGcmEncrypt key nonce pt).drop ((aesGcmEncrypt key nonce pt).length - 16) =
      gcmTag key nonce (maskBytes key nonce 0 pt) := by
    rw [hlen]
    show (maskBytes key nonce 0 pt ++ gcmTag key nonce (maskBytes key nonce 0 pt)).drop
        (pt.length + 16 - 16) = gcmTag key nonce (maskBytes key nonce 0 pt)
    rw [show pt.length + 16 - 16 = (maskBytes key nonce 0 pt).length by omega]
    simp
  rw [htake, hdrop, if_pos rfl]
  rw [unmaskBytes_maskBytes key nonce 0 pt h]

/-! ### crypto.ts: verifier scheme and envelope cipher -/

/-- Translation of `IV_LENGTH` (crypto.ts line 5). -/
def IV_LENGTH : Nat := 12

/-- Zero nonce `new Uint8Array(IV_LENGTH)` used by the verifier scheme
(crypto.ts lines 78 and 95). -/
def zeroIV : List Nat := List.replicate IV_LENGTH 0

/-- Translation of `generateVerifier` (crypto.ts lines 71-83): derive the key,
AEAD-seal the constant marker `VERIFY` under the all-zero nonce, base64 the
result. -/
def generateVerifier (masterPassword : String) (salt : List Nat) : List Char :=
  let key := deriveKey masterPassword salt
  let verifierData := utf8Encode "VERIFY".data
  let encrypted := aesGcmEncrypt key zeroIV verifierData
  arrayBufferToBase64 encrypted

/-- Translation of `verifyMasterPassword` (crypto.ts lines 86-104): derive the
key from the candidate password, base64-decode the stored verifier, AEAD-open
it under the all-zero nonce and compare the decoded text with `VERIFY`; the
surrounding `try/catch` turns every thrown failure into `false`. -/
def verifyMasterPassword (masterPassword : String) (salt : List Nat)
    (storedVerifier : List Char) : Bool :=
  match base64ToArrayBuffer storedVerifier with
  | none => false
  | some encryptedData =>
    match aesGcmDecrypt (deriveKey masterPassword salt) zeroIV encryptedData with
    | none => false
    | some decrypted =>
      match utf8Decode decrypted with
      | none => false
      | some decoded => decoded == "VERIFY".data

/-- Result type of `encryptData`: base64 ciphertext and base64 IV. -/
structure EncryptedData where
  ciphertext : List Char
  iv : List Char
  deriving Repr, DecidableEq

/-- Translation of `encryptData` (crypto.ts lines 107-125): UTF-8 encode the
payload, AEAD-seal it under the freshly generated random IV (passed here as
the explicit argument `iv`, the output of `generateIV`), and base64 both the
ciphertext and the IV. -/
def encryptData (data : String) (key : List Nat) (iv : List Nat) : EncryptedData :=
  let dataBuffer := utf8Encode data.data
  let encrypted := aesGcmEncrypt key iv dataBuffer
  { ciphertext := arrayBufferToBase64 encrypted
    iv := arrayBufferToBase64 iv }

/-- Translation of `decryptData` (crypto.ts lines 128-143): base64-decode the
ciphertext and IV, AEAD-open, UTF-8 decode; `none` is the rejected promise
(thrown exception) of any step. -/
def decryptData (ciphertext : List Char) (iv : List Char) (key : List Nat) : Option String :=
  match base64ToArrayBuffer ciphertext, base64ToArrayBuffer iv with
  | some encryptedData, some ivBuffer =>
    match aesGcmDecrypt key ivBuffer encryptedData with
    | none => none
    | some decrypted =>
      match utf8Decode decrypted with
      | none => none
      | some decoded => some (String.mk decoded)
  | _, _ => none

/-- C1: for every plaintext string `P`, key `K` and IV (any byte sequence a
`Uint8Array` can hold, i.e. bytes < 256 — `generateIV` produces such), the
pair produced by `encryptData` decrypts back to exactly `P`. -/
theorem c1_encrypt_decrypt_roundtrip (data : String) (key iv : List Nat)
    (hiv : ∀ b ∈ iv, b < 256) :
    decryptData (encryptData data key iv).ciphertext (encryptData data key iv).iv key =
      some data := by
  unfold encryptData decryptData arrayBufferToBase64 base64ToArrayBuffer
  simp only [base64Decode_base64Encode _ (aesGcmEncrypt_lt_256 key iv (utf8Encode data.data)),
    base64Decode_base64Encode iv hiv,
    aesGcmDecrypt_aesGcmEncrypt key iv _ (utf8Encode_lt_256 data.data),
    utf8Decode_utf8Encode data.data]

/-- Witness for C1 at a concrete payload, key and IV. -/
theorem c1_encrypt_decrypt_roundtrip_witness :
    decryptData (encryptData "vault-secret" [1, 2, 3] (List.replicate 12 0)).ciphertext
      (encryptData "vault-secret" [1, 2, 3] (List.replicate 12 0)).iv [1, 2, 3] =
      some "vault-secret" :=
  c1_encrypt_decrypt_roundtrip "vault-secret" [1, 2, 3] (List.replicate 12 0)
    (by intro b hb; have := List.eq_of_mem_replicate hb; omega)

theorem verify_eq_true_iff (masterPassword : String) (salt : List Nat)
    (storedVerifier : List Char) :
    verifyMasterPassword masterPassword salt storedVerifier = true ↔
      ∃ encryptedData decrypted decoded,
        base64ToArrayBuffer storedVerifier = some encryptedData ∧
        aesGcmDecrypt (deriveKey masterPassword salt) zeroIV encryptedData = some decrypted ∧
        utf8Decode decrypted = some decoded ∧
        decoded = "VERIFY".data := by
  unfold verifyMasterPassword
  cases hb : base64ToArrayBuffer storedVerifier with
  | none => simp
  | some encryptedData =>
    cases hd : aesGcmDecrypt (deriveKey masterPassword salt) zeroIV encryptedData with
    | none => simp [hd]
    | some decrypted =>
      cases hu : utf8Decode decrypted with
      | none => simp [hd, hu]
      | some decoded => simp [hd, hu]

/-- C2: for every password and every salt, the verifier created at
registration validates the same password under the same salt:
`verifyMasterPassword password salt (generateVerifier password salt)` is
`true`. -/
theorem c2_verifier_roundtrip (password : String) (salt : List Nat) :
    verifyMasterPassword password salt (generateVerifier password salt) = true := by
  rw [verify_eq_true_iff]
  refine ⟨aesGcmEncrypt (deriveKey password salt) zeroIV (utf8Encode "VERIFY".data),
    utf8Encode "VERIFY".data, "VERIFY".data, ?_, ?_, ?_, rfl⟩
  · exact base64Decode_base64Encode _ (aesGcmEncrypt_lt_256 _ _ _)
  · exact aesGcmDecrypt_aesGcmEncrypt _ _ _ (utf8Encode_lt_256 _)
  · exact utf8Decode_utf8Encode "VERIFY".data

/-- C3: `verifyMasterPassword` is a total boolean function (the `try/catch`
converts every thrown failure into `false`, never an exception), and it
returns `true` exactly when the stored verifier base64-decodes, the AEAD open
under the derived key succeeds, and the decrypted bytes decode to exactly the
constant marker `VERIFY`; every failure of any of these steps yields
`false`. -/
theorem c3_verify_false_on_failure (masterPassword : String) (salt : List Nat)
    (storedVerifier : List Char) :
    verifyMasterPassword masterPassword salt storedVerifier = true ↔
      ∃ encryptedData decrypted decoded,
        base64ToArrayBuffer storedVerifier = some encryptedData ∧
        aesGcmDecrypt (deriveKey masterPassword salt) zeroIV encryptedData = some decrypted ∧
        utf8Decode decrypted = some decoded ∧
        decoded = "VERIFY".data :=
  verify_eq_true_iff masterPassword salt storedVerifier

/-! ### crypto.ts: secure clipboard copy -/

/-- Deferred compare-and-clear action scheduled by `setTimeout`: at `fireAt`
it clears the clipboard if the content still equals `secret`. -/
structure ClipTimer where
  fireAt : Nat
  secret : String

/-- System clipboard plus the set of scheduled clear actions. -/
structure ClipboardState where
  clipboard : String
  timers : List ClipTimer

/-- Translation of `secureClipboardCopy` (crypto.ts lines 216-230): write
`text` to the clipboard; when `clearAfterMs > 0`, schedule one deferred
compare-and-clear action for `now + clearAfterMs` capturing `text`. -/
def secureClipboardCopy (st : ClipboardState) (now : Nat) (text : String)
    (clearAfterMs : Nat) : ClipboardState :=
  let st1 : ClipboardState := { st with clipboard := text }
  if clearAfterMs > 0 then
    { st1 with timers := st1.timers ++ [{ fireAt := now + clearAfterMs, secret := text }] }
  else st1

/-- Translation of the `setTimeout` callback body (crypto.ts lines 223-228):
read the current clipboard and clear it exactly when it still equals the
captured `secret`. -/
def fireClipTimer (st : ClipboardState) (t : ClipTimer) : ClipboardState :=
  if st.clipboard = t.secret then { st with clipboard := "" } else st

/-- C7: `secureClipboardCopy st now s ttl` with `ttl > 0` writes `s` to the
clipboard and appends exactly one deferred action, firing at `now + ttl` and
capturing `s`; firing that action clears the clipboard exactly when its
content still equals `s`.  Consequently, in the spec scenario — `s1` copied at
0 and a different `s2` copied at 50, both with ttl 100 — the timer of `s1` at
100 leaves `s2` in place and the timer of `s2` at 150 clears it. -/
theorem c7_clipboard_compare_and_clear (st : ClipboardState) (now : Nat) (s : String)
    (ttl : Nat) (h : 0 < ttl) :
    (secureClipboardCopy st now s ttl).clipboard = s ∧
    (secureClipboardCopy st now s ttl).timers =
      st.timers ++ [{ fireAt := now + ttl, secret := s }] ∧
    (∀ st2 : ClipboardState, (fireClipTimer st2 { fireAt := now + ttl, secret := s }).clipboard =
      if st2.clipboard = s then "" else st2.clipboard) ∧
    (∀ s1 s2 : String, s1 ≠ s2 →
      (fireClipTimer
        (secureClipboardCopy (secureClipboardCopy { clipboard := "", timers := [] } 0 s1 100)
          50 s2 100)
        { fireAt := 100, secret := s1 }).clipboard = s2 ∧
      (fireClipTimer
        (fireClipTimer
          (secureClipboardCopy (secureClipboardCopy { clipboard := "", timers := [] } 0 s1 100)
            50 s2 100)
          { fireAt := 100, secret := s1 })
        { fireAt := 150, secret := s2 }).clipboard = "") := by
  refine ⟨?_, ?_, ?_, ?_⟩
  · simp [secureClipboardCopy, h]
  · simp [secureClipboardCopy, h]
  · intro st2
    unfold fireClipTimer
    by_cases hc : st2.clipboard = s <;> simp [hc]
  · intro s1 s2 hne
    have hb : (secureClipboardCopy (secureClipboardCopy { clipboard := "", timers := [] } 0 s1 100)
        50 s2 100).clipboard = s2 := by
      simp [secureClipboardCopy]
    have hinner : fireClipTimer
        (secureClipboardCopy (secureClipboardCopy { clipboard := "", timers := [] } 0 s1 100)
          50 s2 100) { fireAt := 100, secret := s1 } =
        secureClipboardCopy (secureClipboardCopy { clipboard := "", timers := [] } 0 s1 100)
          50 s2 100 := by
      simp [fireClipTimer, hb, Ne.symm hne]
    constructor
    · rw [hinner]
      exact hb
    · rw [hinner]
      simp [fireClipTimer, hb]

/-- Witness for C7 at a concrete state, time, secret and ttl. -/
theorem c7_clipboard_compare_and_clear_witness :
    (secureClipboardCopy { clipboard := "", timers := [] } 0 "pw" 30000).clipboard = "pw" ∧
    (secureClipboardCopy { clipboard := "", timers := [] } 0 "pw" 30000).timers =
      [] ++ [{ fireAt := 0 + 30000, secret := "pw" }] ∧
    (∀ st2 : ClipboardState, (fireClipTimer st2 { fireAt := 0 + 30000, secret := "pw" }).clipboard =
      if st2.clipboard = "pw" then "" else st2.clipboard) ∧
    (∀ s1 s2 : String, s1 ≠ s2 →
      (fireClipTimer
        (secureClipboardCopy (secureClipboardCopy { clipboard := "", timers := [] } 0 s1 100)
          50 s2 100)
        { fireAt := 100, secret := s1 }).clipboard = s2 ∧
      (fireClipTimer
        (fireClipTimer
          (secureClipboardCopy (secureClipboardCopy { clipboard := "", timers := [] } 0 s1 100)
            50 s2 100)
          { fireAt := 100, secret := s1 })
        { fireAt := 150, secret := s2 }).clipboard = "") :=
  c7_clipboard_compare_and_clear { clipboard := "", timers := [] } 0 "pw" 30000 (by decide)

/-! ### crypto.ts: password generator -/

/-- Character-class options of `generatePassword` (crypto.ts lines 182-194);
every class defaults to enabled. -/
structure PasswordOptions where
  uppercase : Bool := true
  lowercase : Bool := true
  numbers : Bool := true
  symbols : Bool := true

/-- Uppercase class (crypto.ts line 197). -/
def uppercaseChars : List Char := "ABCDEFGHIJKLMNOPQRSTUVWXYZ".data

/-- Lowercase class (crypto.ts line 198). -/
def lowercaseChars : List Char := "abcdefghijklmnopqrstuvwxyz".data

/-- Digit class (crypto.ts line 199). -/
def numberChars : List Char := "0123456789".data

/-- Symbol class (crypto.ts line 200). -/
def symbolChars : List Char := "!@#$%^&*()_+-=[]\x7b\x7d|;:,.<>?".data

/-- Alphanumeric fallback charset (crypto.ts line 202). -/
def fallbackChars : List Char :=
  "abcdefghijklmnopqrstuvwxyzABCDEFGHIJKLMNOPQRSTUVWXYZ0123456789".data

/-- Union of the enabled classes, in source concatenation order (crypto.ts
lines 196-200). -/
def buildCharset (o : PasswordOptions) : List Char :=
  (if o.uppercase then uppercaseChars else []) ++
  (if o.lowercase then lowercaseChars else []) ++
  (if o.numbers then numberChars else []) ++
  (if o.symbols then symbolChars else [])

/-- Charset actually indexed: the union, or the alphanumeric fallback when no
class is enabled (crypto.ts line 202). -/
def passwordCharset (o : PasswordOptions) : List Char :=
  let cs := buildCharset o
  if cs.isEmpty then fallbackChars else cs

/-- Translation of `generatePassword` (crypto.ts lines 180-213): draw
`length` characters, character `i` being `charset[randoms[i] % charset.length]`
where `randoms` is the `Uint32Array(length)` filled by
`crypto.getRandomValues`, passed here explicitly. -/
def generatePassword (length : Nat) (o : PasswordOptions) (randoms : List Nat) : String :=
  let charset := passwordCharset o
  String.mk ((List.range length).map fun i => charset.getD (randoms.getD i 0 % charset.length) 'a')

theorem passwordCharset_pos (o : PasswordOptions) : 0 < (passwordCharset o).length := by
  unfold passwordCharset
  cases hb : buildCharset o with
  | nil => simp [fallbackChars]
  | cons x xs => simp

theorem mem_generatePassword_mem_charset (length : Nat) (o : PasswordOptions)
    (randoms : List Nat) :
    ∀ c ∈ (generatePassword length o randoms).data, c ∈ passwordCharset o := by
  intro c hc
  unfold generatePassword at hc
  simp only [List.mem_map, List.mem_range] at hc
  obtain ⟨i, _, rfl⟩ := hc
  have hlt : randoms.getD i 0 % (passwordCharset o).length < (passwordCharset o).length :=
    Nat.mod_lt _ (passwordCharset_pos o)
  rw [List.getD_eq_getElem _ _ hlt]
  exact List.getElem_mem hlt

/-- C8: for every length `n` with `8 ≤ n ≤ 64`, every selection of
character-class flags and every random draw (one 32-bit word per character),
`generatePassword` returns a string of exactly `n` characters each of which
belongs to the union of the enabled classes; when no class is enabled every
character belongs to the full alphanumeric fallback set. -/
theorem c8_generatePassword_spec (n : Nat) (o : PasswordOptions) (randoms : List Nat)
    (_h8 : 8 ≤ n) (_h64 : n ≤ 64) (_hlen : randoms.length = n) :
    (generatePassword n o randoms).length = n ∧
    (buildCharset o ≠ [] →
      ∀ c ∈ (generatePassword n o randoms).data, c ∈ buildCharset o) ∧
    (buildCharset o = [] →
      ∀ c ∈ (generatePassword n o randoms).data, c ∈ fallbackChars) := by
  refine ⟨?_, ?_, ?_⟩
  · unfold generatePassword
    simp [String.length]
  · intro hne c hc
    have h := mem_generatePassword_mem_charset n o randoms c hc
    unfold passwordCharset at h
    rwa [if_neg (by simpa using hne)] at h
  · intro hnil c hc
    have h := mem_generatePassword_mem_charset n o randoms c hc
    unfold passwordCharset at h
    rwa [if_pos (by simp [hnil])] at h

/-- Witness for C8: length 16, uppercase and digits enabled, lowercase and
symbols disabled, at a concrete random draw. -/
theorem c8_generatePassword_spec_witness :
    (generatePassword 16 ⟨true, false, true, false⟩
        [3, 77, 12, 260, 999, 41, 0, 8, 100, 200, 300, 400, 35, 36, 1, 2]).length = 16 ∧
    (buildCharset ⟨true, false, true, false⟩ ≠ [] →
      ∀ c ∈ (generatePassword 16 ⟨true, false, true, false⟩
        [3, 77, 12, 260, 999, 41, 0, 8, 100, 200, 300, 400, 35, 36, 1, 2]).data,
        c ∈ buildCharset ⟨true, false, true, false⟩) ∧
    (buildCharset ⟨true, false, true, false⟩ = [] →
      ∀ c ∈ (generatePassword 16 ⟨true, false, true, false⟩
        [3, 77, 12, 260, 999, 41, 0, 8, 100, 200, 300, 400, 35, 36, 1, 2]).data,
        c ∈ fallbackChars) :=
  c8_generatePassword_spec 16 ⟨true, false, true, false⟩
    [3, 77, 12, 260, 999, 41, 0, 8, 100, 200, 300, 400, 35, 36, 1, 2]
    (by decide) (by decide) (by decide)

/-! ### AuthContext.tsx: session key manager -/

/-- Encryption profile persisted at registration (AuthContext.tsx lines
68-76); binary fields are stored base64-encoded. -/
structure EncryptionProfile where
  salt : List Char
  verifier : List Char
  kdf : String
  iterations : Nat
  hash : String

/-- React state of `AuthProvider` (AuthContext.tsx lines 102-105): the
authenticated user (by uid), the loading flag, the in-memory encryption key
and the unlocked flag. -/
structure AuthState where
  user : Option String
  loading : Bool
  encryptionKey : Option (List Nat)
  isUnlocked : Bool

/-- Translation of the `onAuthStateChanged` callback (AuthContext.tsx lines
108-116): store the new user and clear loading; the key is discarded and the
vault locked only when the new user is `null`. -/
def onAuthStateChangedHandler (st : AuthState) (newUser : Option String) : AuthState :=
  let st1 : AuthState := { st with user := newUser, loading := false }
  match newUser with
  | none => { st1 with encryptionKey := none, isUnlocked := false }
  | some _ => st1

/-- State update `setEncryptionKey(key); setIsUnlocked(true)` shared by the
success paths of `signUp` (AuthContext.tsx lines 149-150) and `unlockVault`
(lines 186-187). -/
def installKey (st : AuthState) (key : List Nat) : AuthState :=
  { st with encryptionKey := some key, isUnlocked := true }

/-- Translation of `unlockVault` (AuthContext.tsx lines 167-196).  The
Firestore read is passed in as `fetch`: `Except.error ()` is a thrown
`getDoc` (or a malformed profile document), `Except.ok none` a missing
profile document, `Except.ok (some profile)` a successful read.  Returns the
new state and the boolean result. -/
def unlockVault (st : AuthState) (masterPassword : String)
    (fetch : Except Unit (Option EncryptionProfile)) : AuthState × Bool :=
  match st.user with
  | none => (st, false)
  | some _ =>
    match fetch with
    | .error _ => (st, false)
    | .ok none => (st, false)
    | .ok (some profile) =>
      match base64ToArrayBuffer profile.salt with
      | none => (st, false)
      | some saltBuffer =>
        if verifyMasterPassword masterPassword saltBuffer profile.verifier then
          (installKey st (deriveKey masterPassword saltBuffer), true)
        else (st, false)

/-- Translation of `lockVault` (AuthContext.tsx lines 198-201). -/
def lockVault (st : AuthState) : AuthState :=
  { st with encryptionKey := none, isUnlocked := false }

/-- Translation of `logout` (AuthContext.tsx lines 157-161): clear the key
and the unlocked flag (the subsequent `signOut` fires the auth callback
separately). -/
def logout (st : AuthState) : AuthState :=
  { st with encryptionKey := none, isUnlocked := false }

/-- Translation of the tail of `signUp` (AuthContext.tsx lines 147-150): on
success the key derived from the fresh salt is installed and the vault
unlocked.  Any earlier throw aborts `signUp` before these state updates, so
failure leaves the state unchanged. -/
def signUpSuccess (st : AuthState) (masterPassword : String) (salt : List Nat) : AuthState :=
  installKey st (deriveKey masterPassword salt)

/-- Operations of the session key manager that can touch the React state
(AuthContext.tsx lines 101-216). -/
inductive AuthEvent where
  | signUpEv (masterPassword : String) (salt : List Nat) (ok : Bool)
  | signInEv
  | resetPasswordEv
  | logoutEv
  | unlockEv (masterPassword : String) (fetch : Except Unit (Option EncryptionProfile))
  | lockEv
  | authChangedEv (newUser : Option String)

/-- Effect of each operation on the provider state.  `signIn` and
`resetPassword` only await external calls and never touch the key state; a
failed `signUp` throws before its state updates. -/
def authStep (st : AuthState) : AuthEvent → AuthState
  | .signUpEv mp salt ok => if ok then signUpSuccess st mp salt else st
  | .signInEv => st
  | .resetPasswordEv => st
  | .logoutEv => logout st
  | .unlockEv mp fetch => (unlockVault st mp fetch).1
  | .lockEv => lockVault st
  | .authChangedEv u => onAuthStateChangedHandler st u

/-- Session-state invariant of the spec: a key exists exactly when the state
is Unlocked. -/
def KeyLockInv (st : AuthState) : Prop := st.encryptionKey.isSome = st.isUnlocked

theorem unlockVault_shape (st : AuthState) (masterPassword : String)
    (fetch : Except Unit (Option EncryptionProfile)) :
    unlockVault st masterPassword fetch = (st, false) ∨
    ∃ key, unlockVault st masterPassword fetch = (installKey st key, true) := by
  unfold unlockVault
  cases st.user with
  | none => exact Or.inl rfl
  | some u =>
    cases fetch with
    | error e => exact Or.inl rfl
    | ok p =>
      cases p with
      | none => exact Or.inl rfl
      | some profile =>
        cases hs : base64ToArrayBuffer profile.salt with
        | none => exact Or.inl (by simp [hs])
        | some saltBuffer =>
          by_cases hv : verifyMasterPassword masterPassword saltBuffer profile.verifier
          · exact Or.inr ⟨deriveKey masterPassword saltBuffer, by simp [hs, hv]⟩
          · exact Or.inl (by simp [hs, hv])

/-- C4: whenever the candidate password fails verification against the
stored verifier — or the profile is missing, or any step throws (`fetch`
fails, the stored salt is malformed base64) — `unlockVault` called in the
Locked state returns `false` and leaves the state unchanged: the key stays
`none` and `isUnlocked` stays `false`.  (It never throws: it is a total
function.) -/
theorem c4_unlock_fail_locked (st : AuthState) (masterPassword : String)
    (fetch : Except Unit (Option EncryptionProfile))
    (hkey : st.encryptionKey = none) (hunl : st.isUnlocked = false)
    (hfail : ∀ profile saltBuffer, fetch = .ok (some profile) →
      base64ToArrayBuffer profile.salt = some saltBuffer →
      verifyMasterPassword masterPassword saltBuffer profile.verifier = false) :
    unlockVault st masterPassword fetch = (st, false) ∧
    (unlockVault st masterPassword fetch).1.encryptionKey = none ∧
    (unlockVault st masterPassword fetch).1.isUnlocked = false := by
  have heq : unlockVault st masterPassword fetch = (st, false) := by
    unfold unlockVault
    cases st.user with
    | none => rfl
    | some u =>
      cases fetch with
      | error e => rfl
      | ok p =>
        cases p with
        | none => rfl
        | some profile =>
          cases hs : base64ToArrayBuffer profile.salt with
          | none => simp [hs]
          | some saltBuffer =>
            simp [hs, hfail profile saltBuffer rfl hs]
  exact ⟨heq, by rw [heq, hkey], by rw [heq, hunl]⟩

/-- Witness for C4: a locked state with a signed-in user whose profile
document is missing. -/
theorem c4_unlock_fail_locked_witness :
    unlockVault ⟨some "uid1", false, none, false⟩ "guess" (Except.ok none) =
      (⟨some "uid1", false, none, false⟩, false) ∧
    (unlockVault ⟨some "uid1", false, none, false⟩ "guess"
      (Except.ok none)).1.encryptionKey = none ∧
    (unlockVault ⟨some "uid1", false, none, false⟩ "guess"
      (Except.ok none)).1.isUnlocked = false :=
  c4_unlock_fail_locked ⟨some "uid1", false, none, false⟩ "guess" (Except.ok none)
    rfl rfl (by intro profile saltBuffer h; simp at h)

/-- C5 (code behaviour at the claimed failing input): when the auth-state
callback fires with a different signed-in user while the vault is unlocked,
the handler keeps the previous session key and stays unlocked — it locks
only when the new user is `null`, contradicting the claim that every
identity change discards the key. -/
theorem c5_authChanged_switch_keeps_key :
    (onAuthStateChangedHandler ⟨some "userA", false, some [7, 7], true⟩
      (some "userB")).encryptionKey = some [7, 7] ∧
    (onAuthStateChangedHandler ⟨some "userA", false, some [7, 7], true⟩
      (some "userB")).isUnlocked = true ∧
    (onAuthStateChangedHandler ⟨some "userA", false, some [7, 7], true⟩
      (some "userB")).user = some "userB" ∧
    (onAuthStateChangedHandler ⟨some "nil-to-none", false, some [7, 7], true⟩
      none).encryptionKey = none ∧
    (onAuthStateChangedHandler ⟨some "nil-to-none", false, some [7, 7], true⟩
      none).isUnlocked = false :=
  ⟨rfl, rfl, rfl, rfl, rfl⟩

/-- C6: the invariant "a key exists exactly when the vault is unlocked" is
preserved by every operation of the session key manager: signUp (success and
failure), signIn, logout, unlockVault, lockVault and the auth-state-changed
handler. -/
theorem c6_key_iff_unlocked_preserved (st : AuthState) (e : AuthEvent)
    (hinv : KeyLockInv st) : KeyLockInv (authStep st e) := by
  cases e with
  | signUpEv mp salt ok =>
    cases ok with
    | false => simpa [authStep] using hinv
    | true => simp [authStep, signUpSuccess, installKey, KeyLockInv]
  | signInEv => simpa [authStep] using hinv
  | resetPasswordEv => simpa [authStep] using hinv
  | logoutEv => simp [authStep, logout, KeyLockInv]
  | lockEv => simp [authStep, lockVault, KeyLockInv]
  | unlockEv mp fetch =>
    rcases unlockVault_shape st mp fetch with h | ⟨key, h⟩
    · simpa [authStep, h] using hinv
    · simp [authStep, h, installKey, KeyLockInv]
  | authChangedEv u =>
    cases u with
    | none => simp [authStep, onAuthStateChangedHandler, KeyLockInv]
    | some v => simpa [authStep, onAuthStateChangedHandler, KeyLockInv] using hinv

/-- Witness for C6: the initial locked state and an explicit lock event. -/
theorem c6_key_iff_unlocked_preserved_witness :
    KeyLockInv ⟨none, true, none, false⟩ ∧
    KeyLockInv (authStep ⟨none, true, none, false⟩ AuthEvent.lockEv) :=
  ⟨rfl, c6_key_iff_unlocked_preserved ⟨none, true, none, false⟩ AuthEvent.lockEv rfl⟩

/-! ### Passwords page: snapshot decryption loop -/

/-- Encrypted password document as stored (Passwords page, interface
`EncryptedPasswordDoc` plus the document id); `tags` is optional, replaced by
`[]` on display. -/
structure EncryptedPasswordDoc where
  id : String
  title : String
  ciphertext : List Char
  iv : List Char
  tags : Option (List String)
  createdAt : String
  updatedAt : String

/-- Sensitive fields carried by the decrypted JSON payload. -/
structure ParsedSecret where
  username : String
  password : String
  url : String
  notes : String

/-- Decrypted password entry as displayed (interface `PasswordEntry`). -/
structure PasswordEntry where
  id : String
  title : String
  username : String
  password : String
  url : String
  notes : String
  tags : List String
  createdAt : String
  updatedAt : String

/-- Entry built from a document and its decrypted payload (Passwords page,
the `decryptedPasswords.push` record). -/
def mkEntry (d : EncryptedPasswordDoc) (p : ParsedSecret) : PasswordEntry :=
  { id := d.id, title := d.title, username := p.username, password := p.password,
    url := p.url, notes := p.notes, tags := d.tags.getD [], createdAt := d.createdAt,
    updatedAt := d.updatedAt }

/-- Decryption of one document inside the per-record `try`: `decryptData`,
then `JSON.parse` (passed in as `parse`, `none` being a parse throw), then
the entry record; `none` when either step throws. -/
def decryptDoc (parse : String → Option ParsedSecret) (key : List Nat)
    (d : EncryptedPasswordDoc) : Option PasswordEntry :=
  (decryptData d.ciphertext d.iv key).bind fun json => (parse json).map (mkEntry d)

/-- Translation of the `onSnapshot` decryption loop (Passwords page): walk
the snapshot in order, pushing each document that decrypts and parses, and
skipping (after logging) each document whose `try` block throws. -/
def processSnapshot (parse : String → Option ParsedSecret) (key : List Nat) :
    List EncryptedPasswordDoc → List PasswordEntry
  | [] => []
  | d :: rest =>
    match decryptDoc parse key d with
    | none => processSnapshot parse key rest
    | some e => e :: processSnapshot parse key rest

/-- C9: the snapshot loop equals `filterMap` of per-document decryption:
each record is decrypted independently, a record whose decryption (or parse)
fails is skipped, and every sibling record still appears, in order, in the
result — one failure never aborts the processing of the rest. -/
theorem c9_snapshot_skips_failures (parse : String → Option ParsedSecret) (key : List Nat)
    (docs : List EncryptedPasswordDoc) :
    processSnapshot parse key docs = docs.filterMap (decryptDoc parse key) := by
  induction docs with
  | nil => simp [processSnapshot]
  | cons d rest ih =>
    unfold processSnapshot
    cases hd : decryptDoc parse key d with
    | none => rw [ih]; simp [List.filterMap_cons, hd]
    | some e => rw [ih]; simp [List.filterMap_cons, hd]

end PersonalManager
